import Mathlib

/-!
Shallow embedding of `video_to_gif_gui.py` (repository `video_to_gif`).

The numeric values of the program are CPython floats (IEEE-754 binary64).  We model
a float as either a finite rational that is exactly representable in binary64,
or one of the special values inf, negative inf, nan (`PFloat` below).  Rounding of an
exact rational to the nearest binary64 value (round-to-nearest, ties-to-even,
with gradual underflow at 2^-1074 and overflow to infinity at 2^1024) is
`flQ` / `flP`.  Python string parsing (`float(...)`, `int(...)`, `str.strip`,
`str.split`) is modelled character by character on `List Char`.

Subprocess execution is abstracted by an oracle `Runner` mapping a command
line (list of argv strings) to an exit code and captured stdout/stderr; the
functions translated from the source additionally return the list of commands
they invoked, in order, so that theorems can speak about which external
processes run.
-/

namespace V2G

/-! ## Round-to-nearest-even rounding of rationals to binary64 -/

/-- Round a rational to the nearest integer, ties to even
(the rounding used for a binary64 significand). -/
def rne (x : ℚ) : ℤ :=
  let f := ⌊x⌋
  let r := x - f
  if r < 1/2 then f
  else if 1/2 < r then f + 1
  else if f % 2 = 0 then f else f + 1

/-- Fuel-driven floor base-2 logarithm (structural recursion, so that the
kernel can evaluate it; proved equal to `Nat.log 2` below). -/
def log2Fuel : ℕ → ℕ → ℕ
  | 0, _ => 0
  | fuel + 1, n => if 2 ≤ n then log2Fuel fuel (n / 2) + 1 else 0

/-- Floor base-2 logarithm of a natural number. -/
def natLog2 (n : ℕ) : ℕ := log2Fuel n n

/-- Integer power of two as a rational (`2 ^ e` for `e : ℤ`), computed with
shifts so that evaluation is cheap; proved equal to `(2:ℚ) ^ e` below. -/
def qpow2 (e : ℤ) : ℚ :=
  if 0 ≤ e then ((1 <<< e.toNat : ℕ) : ℚ) else mkRat 1 (1 <<< (-e).toNat)

/-- Floor of the base-2 logarithm of `|q|` (for `q ≠ 0`): the unique `e`
with `2^e ≤ |q| < 2^(e+1)`. -/
def dExp (q : ℚ) : ℤ :=
  let n := q.num.natAbs
  let d := q.den
  let e0 : ℤ := (natLog2 n : ℤ) - (natLog2 d : ℤ)
  if qpow2 e0 ≤ |q| then e0 else e0 - 1

/-- Exponent of the least significant bit of the binary64 value nearest `q`:
`dExp q - 52` for normal numbers, clamped at `-1074` for subnormals. -/
def dScale (q : ℚ) : ℤ := max (dExp q - 52) (-1074)

/-- Round a rational to the binary64 grid (no overflow handling):
round-to-nearest, ties-to-even, gradual underflow. -/
def flQ (q : ℚ) : ℚ :=
  if q = 0 then 0
  else (rne (q * qpow2 (-(dScale q)))) * qpow2 (dScale q)

/-- A CPython float: a finite binary64 rational or a special value. -/
inductive PFloat where
  | finite (q : ℚ)
  | inf
  | ninf
  | nan
deriving DecidableEq, Repr

/-- Round a rational to a CPython float, overflowing to infinity at `2^1024`. -/
def flP (q : ℚ) : PFloat :=
  let r := flQ q
  if qpow2 1024 ≤ r then .inf
  else if r ≤ -(qpow2 1024) then .ninf
  else .finite r

/-- IEEE addition on CPython floats (as used by `seconds += p * multiplier`). -/
def PFloat.add : PFloat → PFloat → PFloat
  | .nan, _ => .nan
  | _, .nan => .nan
  | .inf, .ninf => .nan
  | .ninf, .inf => .nan
  | .inf, _ => .inf
  | _, .inf => .inf
  | .ninf, _ => .ninf
  | _, .ninf => .ninf
  | .finite a, .finite b => flP (a + b)

/-- IEEE multiplication on CPython floats. -/
def PFloat.mul : PFloat → PFloat → PFloat
  | .nan, _ => .nan
  | _, .nan => .nan
  | .inf, .inf => .inf
  | .inf, .ninf => .ninf
  | .ninf, .inf => .ninf
  | .ninf, .ninf => .inf
  | .inf, .finite q => if q = 0 then .nan else if 0 < q then .inf else .ninf
  | .finite q, .inf => if q = 0 then .nan else if 0 < q then .inf else .ninf
  | .ninf, .finite q => if q = 0 then .nan else if 0 < q then .ninf else .inf
  | .finite q, .ninf => if q = 0 then .nan else if 0 < q then .ninf else .inf
  | .finite a, .finite b => flP (a * b)

/-- IEEE `<=` on CPython floats: any comparison with NaN is false. -/
def PFloat.le : PFloat → PFloat → Bool
  | .nan, _ => false
  | _, .nan => false
  | .ninf, _ => true
  | _, .ninf => false
  | _, .inf => true
  | .inf, _ => false
  | .finite a, .finite b => decide (a ≤ b)

/-- IEEE `<` on CPython floats: any comparison with NaN is false. -/
def PFloat.lt : PFloat → PFloat → Bool
  | .nan, _ => false
  | _, .nan => false
  | .inf, _ => false
  | .ninf, .ninf => false
  | .ninf, _ => true
  | _, .inf => true
  | _, .ninf => false
  | .finite a, .finite b => decide (a < b)

/-! ## Python string primitives -/

/-- Whitespace characters stripped by `str.strip()` (ASCII portion). -/
def pyIsSpace (c : Char) : Bool :=
  c = ' ' ∨ c = '\t' ∨ c = '\n' ∨ c = '\r' ∨ c = '\x0b' ∨ c = '\x0c'

/-- Drop leading and trailing whitespace from a character list. -/
def stripWS (l : List Char) : List Char :=
  ((l.dropWhile pyIsSpace).reverse.dropWhile pyIsSpace).reverse

/-- Python `str.strip()` with no argument. -/
def pyStrip (s : String) : String := String.mk (stripWS s.data)

/-- Auxiliary for `pySplitColon`. -/
def splitColonAux : List Char → List Char → List String
  | [], cur => [String.mk cur.reverse]
  | ':' :: r, cur => String.mk cur.reverse :: splitColonAux r []
  | c :: r, cur => splitColonAux r (c :: cur)

/-- Python `t.split(":")`: split at every colon, keeping empty pieces. -/
def pySplitColon (s : String) : List String := splitColonAux s.data []

/-- Lower-case an ASCII letter (for case-insensitive inf/nan recognition). -/
def asciiLower (c : Char) : Char :=
  if 'A' ≤ c ∧ c ≤ 'Z' then Char.ofNat (c.toNat + 32) else c

/-- Parse an optional leading sign; returns (isNegative, rest). -/
def parseSign : List Char → Bool × List Char
  | '+' :: r => (false, r)
  | '-' :: r => (true, r)
  | l => (false, l)

/-- Continue a digit run in which single underscores may separate digits
(CPython numeric-literal underscore rule); accumulator holds digits seen so
far in reverse.  Fails (`none`) on a misplaced underscore. -/
def digitsUSAux : List Char → List Char → Option (List Char × List Char)
  | [], acc => some (acc.reverse, [])
  | '_' :: c :: rest, acc =>
      if c.isDigit then digitsUSAux rest (c :: acc) else none
  | ['_'], _ => none
  | c :: rest, acc =>
      if c.isDigit then digitsUSAux rest (c :: acc)
      else some (acc.reverse, c :: rest)

/-- A digit run with optional single underscores between digits; must start
with a digit.  Returns the digits (underscores removed) and the rest. -/
def digitsUS : List Char → Option (List Char × List Char)
  | c :: rest => if c.isDigit then digitsUSAux rest [c] else none
  | [] => none

/-- Numeric value of a list of decimal digit characters. -/
def digitsVal (l : List Char) : ℕ :=
  l.foldl (fun n c => 10 * n + (c.toNat - 48)) 0

/-! ## CPython `float(str)` and `int(str)` -/

/-- Fuel-driven fast exponentiation (recursion depth logarithmic in the
exponent, so that large decimal exponents evaluate cheaply). -/
def powFuel (b : ℕ) : ℕ → ℕ → ℕ
  | 0, _ => 1
  | fuel + 1, e =>
      if e = 0 then 1
      else
        let h := powFuel b fuel (e / 2)
        if e % 2 = 0 then h * h else h * h * b

/-- Power of ten (proved equal to `10 ^ e` below). -/
def natPow10 (e : ℕ) : ℕ := powFuel 10 e e

/-- Power of ten as a rational, for a signed decimal exponent. -/
def qpow10 (e : ℤ) : ℚ :=
  if 0 ≤ e then ((natPow10 e.toNat : ℕ) : ℚ) else mkRat 1 (natPow10 (-e).toNat)

/-- Exact rational value of a decimal literal with integer digits `ip`,
fractional digits `fp` and decimal exponent `ex`:
`(ip + fp / 10 ^ len(fp)) * 10 ^ ex`. -/
def decValue (ip fp : List Char) (ex : ℤ) : ℚ :=
  ((digitsVal ip : ℚ) + mkRat (digitsVal fp) (natPow10 fp.length)) * qpow10 ex

/-- Parse the optional exponent suffix of a float literal and return the
exact value; `l` is what remains after mantissa digits. -/
def parseExpPart (ip fp : List Char) (l : List Char) : Option ℚ :=
  match l with
  | [] => some (decValue ip fp 0)
  | c :: r =>
      if c = 'e' ∨ c = 'E' then
        let (eneg, r1) := parseSign r
        match digitsUS r1 with
        | some (ed, []) =>
            some (decValue ip fp (if eneg then -(digitsVal ed : ℤ) else (digitsVal ed : ℤ)))
        | _ => none
      else none

/-- Parse an unsigned decimal float literal (no inf/nan), returning its exact
rational value, or `none` if the text is not a valid CPython float literal. -/
def parseDecNoSign (l : List Char) : Option ℚ :=
  let (ip, l2) : List Char × List Char :=
    match digitsUS l with
    | some (d, r) => (d, r)
    | none => ([], l)
  match l2 with
  | '.' :: l3 =>
      let (fp, l4) : List Char × List Char :=
        match digitsUS l3 with
        | some (d, r) => (d, r)
        | none => ([], l3)
      if ip = [] ∧ fp = [] then none else parseExpPart ip fp l4
  | _ => if ip = [] then none else parseExpPart ip [] l2

/-- CPython `float(s)` on a string: strip whitespace, optional sign, then a
case-insensitive `inf`/`infinity`/`nan` or a decimal literal, correctly
rounded to binary64.  `none` models the `ValueError` branch. -/
def pyFloatOfString (s : String) : Option PFloat :=
  let l := stripWS s.data
  match l with
  | [] => none
  | _ =>
    let (neg, l1) := parseSign l
    let low := l1.map asciiLower
    if low = "inf".data ∨ low = "infinity".data then
      some (if neg then .ninf else .inf)
    else if low = "nan".data then some .nan
    else
      match parseDecNoSign l1 with
      | some q => some (flP (if neg then -q else q))
      | none => none

/-- CPython `int(s)` on a string: strip whitespace, optional sign, digits
with optional single underscores; `none` models the `ValueError` branch. -/
def pyIntOfString (s : String) : Option ℤ :=
  let l := stripWS s.data
  let (neg, l1) := parseSign l
  match digitsUS l1 with
  | some (d, []) => some (if neg then -(digitsVal d : ℤ) else (digitsVal d : ℤ))
  | _ => none

/-! ## The time helpers (`parse_time`, `format_time_seconds`) -/

/-- Map `float(...)` over the colon-separated parts, failing if any part
fails (the `[float(p) for p in parts]` comprehension, lines 199-202). -/
def allFloats : List String → Option (List PFloat)
  | [] => some []
  | p :: r =>
      match pyFloatOfString p with
      | none => none
      | some v =>
          match allFloats r with
          | none => none
          | some l => some (v :: l)

/-- The accumulation loop of `parse_time` (lines 206-212): over the reversed
parts, `seconds += p * multiplier; multiplier *= 60.0` in float arithmetic. -/
def sumParts : List PFloat → PFloat → PFloat → PFloat
  | [], seconds, _ => seconds
  | p :: r, seconds, multiplier =>
      sumParts r (seconds.add (p.mul multiplier)) (multiplier.mul (.finite 60))

/-- Translation of `parse_time` (lines 183-212): parse a time string in
seconds or colon-separated format to a float; `none` is Python `None`.
The argument is `Option String` because the source accepts `t is None`. -/
def parse_time (t : Option String) : Option PFloat :=
  match t with
  | none => none
  | some t0 =>
    let t1 := pyStrip t0
    if t1 = "" then none
    else
      match pyFloatOfString t1 with
      | some v => some v
      | none =>
        let parts := pySplitColon t1
        match allFloats parts with
        | none => none
        | some ps =>
          match ps with
          | [p] => some p
          | _ => some (sumParts ps.reverse (.finite 0) (.finite 1))

/-- Python errors that the modelled fragments can raise. -/
inductive PyErr where
  | valueError
  | overflowError
  | nameError (id : String)
deriving DecidableEq, Repr

/-- Python `format(n, "02d")`: decimal text left-padded with zeros to width 2. -/
def zfill2 (n : ℤ) : String :=
  if 0 ≤ n ∧ n < 10 then "0" ++ toString n else toString n

/-- Python `format(n, "03d")`: decimal text left-padded with zeros to width 3
(sign-aware, as in CPython). -/
def zfill3 (n : ℤ) : String :=
  if 0 ≤ n then
    if n < 10 then "00" ++ toString n
    else if n < 100 then "0" ++ toString n
    else toString n
  else if -10 < n then "-0" ++ toString (-n)
  else toString n

/-- Python `int(x)` for a finite float value: truncation toward zero. -/
def ratTrunc (q : ℚ) : ℤ := if 0 ≤ q then ⌊q⌋ else -⌊-q⌋

/-- Translation of `format_time_seconds` (lines 214-224).  The input is
`Option PFloat` because the source checks `s is None`; `math.floor` raises
`ValueError` on nan and `OverflowError` on infinities.  For a finite value
`q`, `math.floor(s)` is the exact integer `⌊q⌋` (and its conversion back to
float in `s - math.floor(s)` is exact for every binary64 value), so the
millisecond computation is `int(fl(fl(q - ⌊q⌋) * 1000))`. -/
def format_time_seconds (s : Option PFloat) : Except PyErr String :=
  match s with
  | none => .ok "Unknown"
  | some .nan => .error .valueError
  | some .inf => .error .overflowError
  | some .ninf => .error .overflowError
  | some (.finite q) =>
    let ms : ℤ := ratTrunc (flQ (flQ (q - ⌊q⌋) * 1000))
    let total : ℤ := ⌊q⌋
    let sec : ℤ := Int.emod total 60
    let total2 : ℤ := Int.ediv total 60
    let minute : ℤ := Int.emod total2 60
    let hour : ℤ := Int.ediv total2 60
    .ok (zfill2 hour ++ ":" ++ zfill2 minute ++ ":" ++ zfill2 sec ++ "." ++ zfill3 ms)

/-! ## Subprocess layer

External processes are abstracted by an oracle mapping a command line to the
result `run_subprocess` would return: `(returncode, stdout, stderr)`
(lines 171-181).  The translated functions additionally return the list of
commands they invoked, in order, and the progress-callback log lines. -/

/-- Result of `run_subprocess`: return code, captured stdout and stderr. -/
structure ProcOut where
  rc : ℤ
  out : String
  err : String

/-- Oracle standing for executing one external command. -/
def Runner : Type := List String → ProcOut

/-- Python truthiness choice `err or out` used in the failure messages. -/
def strOr (a b : String) : String := if a = "" then b else a

/-- Characters that `shlex.quote` leaves unquoted. -/
def shlexSafe (c : Char) : Bool :=
  c.isAlphanum ∨ c = '_' ∨ c = '@' ∨ c = '%' ∨ c = '+' ∨ c = '=' ∨ c = ':'
    ∨ c = ',' ∨ c = '.' ∨ c = '/' ∨ c = '-'

/-- Python `shlex.quote`. -/
def shlexQuote (s : String) : String :=
  if s = "" then "''"
  else if s.data.all shlexSafe then s
  else
    "'" ++ String.mk (s.data.foldr
      (fun c acc => if c = '\'' then '\'' :: '"' :: '\'' :: '"' :: '\'' :: acc else c :: acc)
      []) ++ "'"

/-- Render a command for the progress log: `' '.join(shlex.quote(x) for x in cmd)`. -/
def joinQuoted (cmd : List String) : String :=
  String.intercalate " " (cmd.map shlexQuote)

/-- POSIX `os.path.join` of a directory and one component. -/
def pathJoin (a b : String) : String := a ++ "/" ++ b

/-- The `ExportOptions` dataclass (lines 252-256). -/
structure ExportOptions where
  fps : ℤ := 10
  width : Option ℤ := none
  method : String := "palette"
deriving DecidableEq, Repr

/-- The scale element of the filter graph (lines 269 and 298); note the
Python truthiness test `if width`, under which a width of 0 falls back to
the original-width branch just like `None`. -/
def scaleFilter (width : Option ℤ) : String :=
  match width with
  | some w => if w = 0 then "scale=iw:-1:flags=lanczos"
              else "scale=" ++ toString w ++ ":-1:flags=lanczos"
  | none => "scale=iw:-1:flags=lanczos"

/-- The palette-generation command of `run_ffmpeg_palette` (lines 271-275). -/
def paletteCmd (ss ts input_path : String) (fps : ℤ) (width : Option ℤ)
    (work_dir : String) : List String :=
  ["ffmpeg", "-ss", ss, "-to", ts, "-i", input_path,
   "-vf", "fps=" ++ toString fps ++ "," ++ scaleFilter width ++ ",palettegen",
   "-y", pathJoin work_dir "palette.png"]

/-- The palette-use command of `run_ffmpeg_palette` (lines 282-286). -/
def gifCmd (ss ts input_path : String) (fps : ℤ) (width : Option ℤ)
    (output_path work_dir : String) : List String :=
  ["ffmpeg", "-ss", ss, "-to", ts, "-i", input_path, "-i", pathJoin work_dir "palette.png",
   "-lavfi", "fps=" ++ toString fps ++ "," ++ scaleFilter width ++ " [x]; [x][1:v] paletteuse",
   "-y", output_path]

/-- The one command of `run_ffmpeg_single` (lines 300-304). -/
def singleCmd (ss ts input_path : String) (fps : ℤ) (width : Option ℤ)
    (output_path : String) : List String :=
  ["ffmpeg", "-ss", ss, "-to", ts, "-i", input_path,
   "-vf", "fps=" ++ toString fps ++ "," ++ scaleFilter width,
   "-y", output_path]

/-- Translation of `run_ffmpeg_palette` (lines 260-292): two-pass palette
GIF creation.  Returns `((success, message), invocations, progress logs)`;
the `Except` layer carries an exception raised by `format_time_seconds`
(possible when a non-finite time reaches the worker), which in the source
would propagate before any subprocess ran. -/
def run_ffmpeg_palette (R : Runner) (input_path : String) (start e : PFloat)
    (fps : ℤ) (width : Option ℤ) (output_path work_dir : String) :
    Except PyErr ((Bool × String) × List (List String) × List String) :=
  match format_time_seconds (some start) with
  | .error er => .error er
  | .ok ss =>
    match format_time_seconds (some e) with
    | .error er => .error er
    | .ok ts =>
      let palette_cmd := paletteCmd ss ts input_path fps width work_dir
      let log1 := "Running palette generation:\n" ++ joinQuoted palette_cmd
      let r1 := R palette_cmd
      if r1.rc ≠ 0 then
        .ok ((false, "Palette generation failed: " ++ strOr r1.err r1.out),
             [palette_cmd], [log1])
      else
        let gif_cmd := gifCmd ss ts input_path fps width output_path work_dir
        let log2 := "Running palette use:\n" ++ joinQuoted gif_cmd
        let r2 := R gif_cmd
        if r2.rc ≠ 0 then
          .ok ((false, "Palette-based gif creation failed: " ++ strOr r2.err r2.out),
               [palette_cmd, gif_cmd], [log1, log2])
        else
          .ok ((true, "GIF created successfully (palette method)."),
               [palette_cmd, gif_cmd], [log1, log2])

/-- Translation of `run_ffmpeg_single` (lines 294-310): one-pass GIF creation. -/
def run_ffmpeg_single (R : Runner) (input_path : String) (start e : PFloat)
    (fps : ℤ) (width : Option ℤ) (output_path : String) :
    Except PyErr ((Bool × String) × List (List String) × List String) :=
  match format_time_seconds (some start) with
  | .error er => .error er
  | .ok ss =>
    match format_time_seconds (some e) with
    | .error er => .error er
    | .ok ts =>
      let cmd := singleCmd ss ts input_path fps width output_path
      let log1 := "Running single-step command:\n" ++ joinQuoted cmd
      let r := R cmd
      if r.rc ≠ 0 then
        .ok ((false, "Single-step GIF creation failed: " ++ strOr r.err r.out), [cmd], [log1])
      else
        .ok ((true, "GIF created successfully (single-step method)."), [cmd], [log1])

/-! ## The export worker and `on_export` -/

/-- Rendering of a float in the first worker log line.  (CPython renders
floats with the shortest round-tripping decimal; no claim depends on this
text, so finite values are rendered as exact rationals here.) -/
def pfloatRepr : PFloat → String
  | .finite q => toString q
  | .inf => "inf"
  | .ninf => "-inf"
  | .nan => "nan"

/-- Rendering of the optional width in the first worker log line. -/
def optIntRepr : Option ℤ → String
  | none => "None"
  | some w => toString w

/-- Observable outcome of one `_export_worker` call (lines 572-600):
log lines appended, dialogs shown, external commands invoked,
whether the temporary directory was removed, whether the lock is held
after the call (given it was `lockHeld` before by another worker), and an
exception propagating out of the worker thread, if any. -/
structure WorkerOut where
  logs : List String
  dialogs : List (String × String × String)
  invocations : List (List String)
  cleaned : Bool
  lockAfter : Bool
  raised : Option PyErr
deriving Repr

/-- Outcome handling and `finally` block of `_export_worker` (lines
584-600): success and failure dialogs and log lines, then removal of the
working directory and release of the lock on every outcome of the body,
including an exception (`Except.error`) propagating out of it. -/
def workerFinish (startLine out_path : String)
    (body : Except PyErr ((Bool × String) × List (List String) × List String)) :
    WorkerOut :=
  match body with
  | .error er =>
      { logs := [startLine, "Cleaned temporary files."], dialogs := [],
        invocations := [], cleaned := true, lockAfter := false, raised := some er }
  | .ok ((ok, msg), inv, plogs) =>
      let resLogs := if ok then ["Success: " ++ msg, "Output saved to: " ++ out_path]
                     else ["Failed: " ++ msg]
      let dlg := if ok then [("info", "Export complete", "GIF exported to:\n" ++ out_path)]
                 else [("error", "Export failed", msg)]
      { logs := [startLine] ++ plogs ++ resLogs ++ ["Cleaned temporary files."],
        dialogs := dlg, invocations := inv, cleaned := true, lockAfter := false,
        raised := none }

/-- The first log line of the worker (line 578). -/
def startLogLine (input_path : String) (start e : PFloat) (opts : ExportOptions) : String :=
  "Starting export: " ++ input_path ++ " [" ++ pfloatRepr start
    ++ " -> " ++ pfloatRepr e ++ "] fps=" ++ toString opts.fps
    ++ " width=" ++ optIntRepr opts.width ++ " method=" ++ opts.method

/-- Translation of `VideoToGifGUI._export_worker` (lines 572-600).
`lockHeld` says whether another export already holds `self._lock`; the
non-blocking acquisition fails in that case and the worker returns after a
single log line.  Otherwise the body runs one of the two ffmpeg paths and
`workerFinish` applies the outcome handling and the `finally` block. -/
def export_worker (lockHeld : Bool) (R : Runner) (input_path : String)
    (start e : PFloat) (opts : ExportOptions) (out_path workdir : String) : WorkerOut :=
  if lockHeld then
    { logs := ["Another export is in progress. Please wait."], dialogs := [],
      invocations := [], cleaned := false, lockAfter := true, raised := none }
  else
    workerFinish (startLogLine input_path start e opts) out_path
      (if opts.method = "palette" then
        run_ffmpeg_palette R input_path start e opts.fps opts.width out_path workdir
      else
        run_ffmpeg_single R input_path start e opts.fps opts.width out_path)

/-- Inputs visible to `on_export` (lines 512-570): the ffmpeg-availability
flag, the selected file, the entry/variable contents, the known duration,
the result of `self.fps_var.get()` (`none` models the `TclError` a
non-integer spinbox content raises), and the path the save dialog would
return if it had to be opened (`none` models the user cancelling). -/
structure ExportEnv where
  ffmpeg_ok : Bool
  input_path : Option String
  start_str : String
  end_str : String
  duration : Option PFloat
  fps_get : Option ℤ
  width_str : String
  out_str : String
  save_dialog : Option String
  method : String
  workdir : String

/-- What `on_export` did: an error dialog, a warning dialog, a silent
return (save dialog cancelled), or starting the worker thread with the
validated arguments. -/
inductive ExportAction where
  | errDialog (title msg : String)
  | warnDialog (title msg : String)
  | cancelled
  | started (start e : PFloat) (opts : ExportOptions) (out_path workdir : String)
deriving DecidableEq, Repr

/-- The width validation of `on_export` (lines 544-553): `some none` for an
empty entry (keep original width), `some (some w)` for a valid positive
integer, `none` when a warning must be shown. -/
def widthCheck (width_str : String) : Option (Option ℤ) :=
  if pyStrip width_str = "" then some none
  else
    match pyIntOfString (pyStrip width_str) with
    | none => none
    | some w => if w ≤ 0 then none else some (some w)

/-- The output-path selection of `on_export` (lines 554-561): the stripped
entry if non-empty, otherwise the answer of the save dialog (`none` = cancelled). -/
def pickOut (out_str : String) (dlg : Option String) : Option String :=
  if pyStrip out_str = "" then dlg else some (pyStrip out_str)

/-- The checks of `on_export` from the range check on (lines 532-570),
after start and end have been resolved to floats. -/
def exportChecks (env : ExportEnv) (start e : PFloat) : ExportAction × List String :=
  if PFloat.le e start then
    (.warnDialog "Invalid range" "End time must be greater than start time.", [])
  else
    match env.fps_get with
    | none => (.warnDialog "Invalid FPS" "FPS must be an integer between 1 and 60.", [])
    | some fps =>
      if ¬ (1 ≤ fps ∧ fps ≤ 60) then
        (.warnDialog "Invalid FPS" "FPS must be an integer between 1 and 60.", [])
      else
        match widthCheck env.width_str with
        | none => (.warnDialog "Invalid width" "Width must be a positive integer.", [])
        | some width =>
          match pickOut env.out_str env.save_dialog with
          | none => (.cancelled, [])
          | some p =>
              (.started start e ⟨fps, width, env.method⟩ p env.workdir,
               ["Working directory: " ++ env.workdir])

/-- Translation of `VideoToGifGUI.on_export` (lines 512-570): availability
and input checks, time parsing, the fall-back of a missing end time to the
known duration, numeric validation, output-path selection, and the start of
the worker thread.  The second component is the log lines written. -/
def on_export (env : ExportEnv) : ExportAction × List String :=
  if ¬ env.ffmpeg_ok then
    (.errDialog "ffmpeg missing" "ffmpeg or ffprobe not found. Install ffmpeg and try again.", [])
  else
    match env.input_path with
    | none => (.warnDialog "No file" "Please choose a video file first.", [])
    | some _ =>
      match parse_time (some env.start_str) with
      | none => (.warnDialog "Invalid start" "Start time invalid.", [])
      | some start =>
        match parse_time (some env.end_str) with
        | some e => exportChecks env start e
        | none =>
          match env.duration with
          | some d => exportChecks env start d
          | none =>
            (.warnDialog "Invalid end" "End time invalid and video duration unknown.", [])

/-! ## `find_ffmpeg_binaries` (lines 84-156) -/

/-- Environment of `find_ffmpeg_binaries`: the platform string, whether the
program runs frozen, the executable/script directory computed in lines
92-99, and the file-system predicate
`os.path.isfile(p) and os.access(p, os.X_OK)`. -/
structure FBEnv where
  platform : String
  frozen : Bool
  exe_dir : String
  isExecFile : String → Bool

/-- Platform-specific ffmpeg binary name (lines 102-107). -/
def ffmpegName (platform : String) : String :=
  if platform = "win32" then "ffmpeg.exe" else "ffmpeg"

/-- Platform-specific ffprobe binary name (lines 102-107). -/
def ffprobeName (platform : String) : String :=
  if platform = "win32" then "ffprobe.exe" else "ffprobe"

/-- Platform subdirectory under `ffmpeg_binaries` (lines 119-124). -/
def platformSub (platform : String) : String :=
  if platform = "darwin" then "macos"
  else if platform = "win32" then "windows"
  else "linux"

/-- POSIX `os.path.dirname`: the input up to (excluding) the last slash. -/
def dirName (p : String) : String :=
  String.mk ((((p.data.reverse).dropWhile (fun c => ¬ c = '/')).drop 1).reverse)

/-- Construction of the candidate directory list (lines 126-146): the first
three appends succeed, then line 136 evaluates
`os.path.dirname(parent)` where no name `parent` was ever bound, raising
`NameError` before the later appends, the search loop, or the fallback
return can run. -/
def buildCandidates (env : FBEnv) : Except PyErr (List String) :=
  let c1 := pathJoin env.exe_dir "ffmpeg_binaries"
  let app_contents := dirName env.exe_dir
  let app_root := dirName app_contents
  let c2 := pathJoin (pathJoin app_root "Resources") "ffmpeg_binaries"
  let c3 := pathJoin (pathJoin app_root "Frameworks") "ffmpeg_binaries"
  match [Except.ok c1, Except.ok c2, Except.ok c3,
         Except.error (PyErr.nameError "parent")] with
  | l => (l.foldr (fun x acc =>
      match x, acc with
      | .error er, _ => .error er
      | _, .error er => .error er
      | .ok a, .ok r => .ok (a :: r)) (.ok []))

/-- The search loop over candidate directories (lines 148-153) with the
fallback to the bare command names (line 156). -/
def searchCandidates (env : FBEnv) (fm fp : String) : List String → String × String
  | [] => (fm, fp)
  | cand :: rest =>
      let pd := pathJoin cand (platformSub env.platform)
      let f1 := pathJoin pd fm
      let f2 := pathJoin pd fp
      if env.isExecFile f1 && env.isExecFile f2 then (f1, f2)
      else searchCandidates env fm fp rest

/-- Translation of `find_ffmpeg_binaries` (lines 84-156).  The module-level
assignment `FFMPEG_CMD, FFPROBE_CMD = find_ffmpeg_binaries()` (line 159)
runs at import time, so an `.error` here means the program fails to start. -/
def find_ffmpeg_binaries (env : FBEnv) : Except PyErr (String × String) :=
  let fm := ffmpegName env.platform
  let fp := ffprobeName env.platform
  let ff_local := pathJoin env.exe_dir fm
  let fp_local := pathJoin env.exe_dir fp
  if env.isExecFile ff_local && env.isExecFile fp_local then
    .ok (ff_local, fp_local)
  else
    match buildCandidates env with
    | .error er => .error er
    | .ok cands => .ok (searchCandidates env fm fp cands)

/-! ## Theorems about the embedded program -/

set_option maxRecDepth 4000

/-- C2: `parse_time("90")` and `parse_time("0:01:30")` return the same
value, 90.0 seconds: a bare number of seconds and the equivalent
colon-separated hour:minute:second text parse to equal time values. -/
theorem c2_bare_seconds_equals_colon_form :
    parse_time (some "90") = some (.finite 90) ∧
    parse_time (some "0:01:30") = some (.finite 90) :=
  ⟨by with_unfolding_all rfl, by with_unfolding_all rfl⟩

/-- C1 (evaluation at the failing input): the parse-then-format round trip
is NOT the identity on well-formed `HH:MM:SS.mmm` strings.  Parsing
`"00:00:01.001"` yields the binary64 value nearest 1.001 s, which is
slightly below it, and `format_time_seconds` truncates the scaled
fractional part with `int(...)`, so the millisecond field comes back as
`000` instead of `001`. -/
theorem c1_roundtrip_fails_at_one_millisecond :
    format_time_seconds (parse_time (some "00:00:01.001")) = .ok "00:00:01.000" ∧
    ("00:00:01.000" : String) ≠ "00:00:01.001" :=
  ⟨by with_unfolding_all rfl, by decide⟩

/-- C5: an export attempt made while another export is in flight (the
non-blocking lock acquisition fails) logs
"Another export is in progress. Please wait." and returns without invoking
any external process, without showing a dialog, without touching the
temporary directory, and leaving the lock held by the other worker. -/
theorem c5_concurrent_export_rejected (R : Runner) (input_path : String)
    (start e : PFloat) (opts : ExportOptions) (out_path workdir : String) :
    export_worker true R input_path start e opts out_path workdir =
      { logs := ["Another export is in progress. Please wait."], dialogs := [],
        invocations := [], cleaned := false, lockAfter := true, raised := none } :=
  rfl

/-- C9: when the worker actually runs (the lock was free), the temporary
working directory is removed and the lock is released afterwards, on every
outcome of the external invocations (success, failure, or an exception from
time formatting), because both happen in the `finally` block. -/
theorem c9_cleanup_and_lock_release (R : Runner) (input_path : String)
    (start e : PFloat) (opts : ExportOptions) (out_path workdir : String) :
    (export_worker false R input_path start e opts out_path workdir).cleaned = true ∧
    (export_worker false R input_path start e opts out_path workdir).lockAfter = false := by
  have hfin : ∀ (sl op : String) body,
      (workerFinish sl op body).cleaned = true ∧ (workerFinish sl op body).lockAfter = false := by
    intro sl op body
    rcases body with er | ⟨⟨ok, msg⟩, inv, plogs⟩ <;> exact ⟨rfl, rfl⟩
  exact hfin _ _ _

/-- C10: whenever the early return for executables found directly next to
the script/executable is not taken, `find_ffmpeg_binaries` raises
`NameError` (line 136 references the unbound name `parent` while building
the candidate list), so it never reaches the fallback to the system
`ffmpeg`/`ffprobe` commands; since it runs at module import time, the
program fails to start. -/
theorem c10_unbound_parent_raises (env : FBEnv)
    (h : ¬ (env.isExecFile (pathJoin env.exe_dir (ffmpegName env.platform)) &&
            env.isExecFile (pathJoin env.exe_dir (ffprobeName env.platform))) = true) :
    find_ffmpeg_binaries env = .error (.nameError "parent") ∧
    ∀ r, find_ffmpeg_binaries env ≠ .ok r := by
  have he : find_ffmpeg_binaries env = .error (.nameError "parent") := by
    unfold find_ffmpeg_binaries
    rw [if_neg h]
    rfl
  exact ⟨he, fun r hr => by rw [he] at hr; exact Except.noConfusion hr⟩

/-- Closed witness for `c10_unbound_parent_raises`: a concrete environment
in which no bundled executable exists. -/
theorem c10_unbound_parent_raises_witness :
    find_ffmpeg_binaries ⟨"linux", false, "/opt/app", fun _ => false⟩ =
      .error (.nameError "parent") :=
  (c10_unbound_parent_raises ⟨"linux", false, "/opt/app", fun _ => false⟩
    (by decide)).1

/-- C4: for the palette method, exactly two external invocations are made
in sequence (palette generation, then the palette-using encode), the second
only if the first exited with code 0; a non-zero exit of either makes
`run_ffmpeg_palette` return `(False, message)` with no further invocation,
and both succeeding yields `(True, message)`.  The single-step method makes
exactly one invocation. -/
theorem c4_palette_invocation_protocol (R : Runner) (input_path : String)
    (a b : PFloat) (fps : ℤ) (width : Option ℤ) (out wd ss ts : String)
    (h1 : format_time_seconds (some a) = .ok ss)
    (h2 : format_time_seconds (some b) = .ok ts) :
    ((R (paletteCmd ss ts input_path fps width wd)).rc ≠ 0 →
      ∃ m l, run_ffmpeg_palette R input_path a b fps width out wd =
        .ok ((false, m), [paletteCmd ss ts input_path fps width wd], l)) ∧
    ((R (paletteCmd ss ts input_path fps width wd)).rc = 0 →
      (R (gifCmd ss ts input_path fps width out wd)).rc ≠ 0 →
      ∃ m l, run_ffmpeg_palette R input_path a b fps width out wd =
        .ok ((false, m),
             [paletteCmd ss ts input_path fps width wd,
              gifCmd ss ts input_path fps width out wd], l)) ∧
    ((R (paletteCmd ss ts input_path fps width wd)).rc = 0 →
      (R (gifCmd ss ts input_path fps width out wd)).rc = 0 →
      ∃ l, run_ffmpeg_palette R input_path a b fps width out wd =
        .ok ((true, "GIF created successfully (palette method)."),
             [paletteCmd ss ts input_path fps width wd,
              gifCmd ss ts input_path fps width out wd], l)) ∧
    (∃ r m l, run_ffmpeg_single R input_path a b fps width out =
        .ok ((r, m), [singleCmd ss ts input_path fps width out], l) ∧
        (r = true ↔ (R (singleCmd ss ts input_path fps width out)).rc = 0)) := by
  unfold run_ffmpeg_palette run_ffmpeg_single
  rw [h1, h2]
  dsimp only
  refine ⟨fun hrc => ?_, fun hrc1 hrc2 => ?_, fun hrc1 hrc2 => ?_, ?_⟩
  · rw [if_pos hrc]
    exact ⟨_, _, rfl⟩
  · rw [if_neg (not_not_intro hrc1), if_pos hrc2]
    exact ⟨_, _, rfl⟩
  · rw [if_neg (not_not_intro hrc1), if_neg (not_not_intro hrc2)]
    exact ⟨_, rfl⟩
  · by_cases hs : (R (singleCmd ss ts input_path fps width out)).rc = 0
    · refine ⟨true, "GIF created successfully (single-step method).",
        ["Running single-step command:\n" ++ joinQuoted (singleCmd ss ts input_path fps width out)],
        ?_, by simp [hs]⟩
      rw [if_neg (not_not_intro hs)]
    · refine ⟨false,
        "Single-step GIF creation failed: " ++
          strOr (R (singleCmd ss ts input_path fps width out)).err
            (R (singleCmd ss ts input_path fps width out)).out,
        ["Running single-step command:\n" ++ joinQuoted (singleCmd ss ts input_path fps width out)],
        ?_, by simp [hs]⟩
      rw [if_pos hs]

/-- Closed witness for `c4_palette_invocation_protocol`: a concrete runner
that fails every command, with both times 0 s. -/
theorem c4_palette_invocation_protocol_witness :
    ∃ m l, run_ffmpeg_palette (fun _ => ⟨1, "", "boom"⟩) "in.mp4"
        (.finite 0) (.finite 0) 10 none "out.gif" "/tmp/w" =
      .ok ((false, m),
           [paletteCmd "00:00:00.000" "00:00:00.000" "in.mp4" 10 none "/tmp/w"], l) :=
  (c4_palette_invocation_protocol (fun _ => ⟨1, "", "boom"⟩) "in.mp4"
      (.finite 0) (.finite 0) 10 none "out.gif" "/tmp/w" "00:00:00.000" "00:00:00.000"
      (by with_unfolding_all rfl) (by with_unfolding_all rfl)).1
    (by decide)

/-- The comprehension `[float(p) for p in parts]` fails exactly when some
part is not a valid float literal. -/
theorem allFloats_eq_none_iff (l : List String) :
    allFloats l = none ↔ ∃ p ∈ l, pyFloatOfString p = none := by
  induction l with
  | nil => simp [allFloats]
  | cons p r ih =>
    cases h : pyFloatOfString p with
    | none =>
      simp only [allFloats, h]
      exact iff_of_true trivial ⟨p, List.mem_cons_self p r, h⟩
    | some v =>
      cases h2 : allFloats r with
      | none =>
        simp only [allFloats, h, h2]
        refine iff_of_true trivial ?_
        obtain ⟨q, hq, hqn⟩ := ih.mp h2
        exact ⟨q, List.mem_cons_of_mem _ hq, hqn⟩
      | some ps =>
        simp only [allFloats, h, h2]
        refine iff_of_false (by simp) ?_
        rintro ⟨q, hq, hqn⟩
        rcases List.mem_cons.mp hq with rfl | hq2
        · rw [h] at hqn; exact Option.noConfusion hqn
        · have hr := ih.mpr ⟨q, hq2, hqn⟩
          rw [h2] at hr; exact Option.noConfusion hr

/-- C3: `parse_time` returns `None` exactly for malformed input: a `None`
argument, a string that is empty after stripping, or a string that neither
parses as a bare float nor has every colon-separated field parse as a
float; every input of one of the two accepted shapes yields a value. -/
theorem c3_parse_time_none_iff_malformed (t : Option String) :
    parse_time t = none ↔
      (t = none ∨ ∃ s, t = some s ∧
        (pyStrip s = "" ∨
          (pyFloatOfString (pyStrip s) = none ∧
            ∃ p ∈ pySplitColon (pyStrip s), pyFloatOfString p = none))) := by
  cases t with
  | none => simp [parse_time]
  | some s =>
    simp only [parse_time, Option.some.injEq, reduceCtorEq, false_or]
    by_cases h1 : pyStrip s = ""
    · rw [if_pos h1]
      simp [h1]
    · rw [if_neg h1]
      cases h2 : pyFloatOfString (pyStrip s) with
      | some v =>
        simp [h1, h2]
      | none =>
        cases h3 : allFloats (pySplitColon (pyStrip s)) with
        | none =>
          have hex := (allFloats_eq_none_iff _).mp h3
          simp [h1, h2, hex]
        | some ps =>
          have hex : ¬ ∃ p ∈ pySplitColon (pyStrip s), pyFloatOfString p = none := by
            intro hx
            have hr := (allFloats_eq_none_iff _).mpr hx
            rw [h3] at hr; exact Option.noConfusion hr
          rcases ps with _ | ⟨p, _ | ⟨q, rest⟩⟩ <;> simp [h1, h2, h3, hex]

/-- A width accepted by `widthCheck` is positive. -/
theorem widthCheck_pos (s : String) (w : ℤ)
    (h : widthCheck s = some (some w)) : 0 < w := by
  unfold widthCheck at h
  split at h
  · simp at h
  · split at h
    · exact Option.noConfusion h
    · split at h
      · exact Option.noConfusion h
      · rename_i w' hw' hle
        obtain rfl : w' = w := by simpa using h
        omega

/-- Inversion of `exportChecks`: a started export carries exactly the parsed
times, an fps within bounds, a positive width when one was given, and a
failed IEEE `end <= start` comparison. -/
theorem exportChecks_started_inv (env : ExportEnv) (st e st2 e2 : PFloat)
    (opts : ExportOptions) (op wd : String)
    (h : (exportChecks env st e).1 = .started st2 e2 opts op wd) :
    st2 = st ∧ e2 = e ∧ PFloat.le e st = false ∧
    1 ≤ opts.fps ∧ opts.fps ≤ 60 ∧ (∀ w, opts.width = some w → 0 < w) := by
  unfold exportChecks at h
  split at h
  · simp at h
  · rename_i hle
    split at h
    · simp at h
    · rename_i fps hfps
      split at h
      · simp at h
      · rename_i hb
        split at h
        · simp at h
        · rename_i width hw
          split at h
          · simp at h
          · rename_i p hp
            simp only [ExportAction.started.injEq] at h
            obtain ⟨h1, h2, h3, -, -⟩ := h
            subst h1; subst h2; subst h3
            refine ⟨rfl, rfl, by simpa using hle, (not_not.mp hb).1, (not_not.mp hb).2, ?_⟩
            intro w hww
            simp only at hww
            exact widthCheck_pos env.width_str w (hww ▸ hw)

/-- The function `on_export` either stops before the numeric checks (with a dialog or a
silent return, never a started export) or hands over to `exportChecks`. -/
theorem on_export_dispatch (env : ExportEnv) :
    (∃ st e, on_export env = exportChecks env st e ∧
      parse_time (some env.start_str) = some st ∧
      (parse_time (some env.end_str) = some e ∨
        (parse_time (some env.end_str) = none ∧ env.duration = some e))) ∨
    ((∀ st2 e2 opts op wd, (on_export env).1 ≠ .started st2 e2 opts op wd) ∧
      (on_export env).2 = []) := by
  unfold on_export
  split
  · exact Or.inr ⟨fun _ _ _ _ _ => by simp, rfl⟩
  · cases env.input_path with
    | none => exact Or.inr ⟨fun _ _ _ _ _ => by simp, rfl⟩
    | some i =>
      cases hst : parse_time (some env.start_str) with
      | none => exact Or.inr ⟨fun _ _ _ _ _ => by simp, rfl⟩
      | some st =>
        cases hen : parse_time (some env.end_str) with
        | some e => exact Or.inl ⟨st, e, rfl, rfl, Or.inl rfl⟩
        | none =>
          cases hd : env.duration with
          | some d => exact Or.inl ⟨st, d, rfl, rfl, Or.inr ⟨rfl, rfl⟩⟩
          | none => exact Or.inr ⟨fun _ _ _ _ _ => by simp, rfl⟩

/-- C6 counterexample: with start and end both `"nan"` (which `parse_time`
accepts, since `float("nan")` succeeds), the range check `end <= start` is
false under IEEE comparison, so `on_export` starts a worker although the
end time is NOT strictly greater than the start time — the claimed
"starts only when end > start" fails at this input. -/
theorem c6_nan_times_bypass_range_check :
    (on_export { ffmpeg_ok := true, input_path := some "in.mp4",
                 start_str := "nan", end_str := "nan", duration := none,
                 fps_get := some 10, width_str := "", out_str := "out.gif",
                 save_dialog := none, method := "palette", workdir := "/tmp/w" }).1 =
      .started .nan .nan ⟨10, none, "palette"⟩ "out.gif" "/tmp/w" ∧
    PFloat.lt .nan .nan = false :=
  ⟨by with_unfolding_all rfl, rfl⟩

/-- C6 (amended): `on_export` starts an export only when the validated
inputs satisfy: fps an integer in [1,60], any given width strictly
positive, and the IEEE comparison `end <= start` false — which is
equivalent to `end > start` whenever both times are ordered numbers, but
also lets NaN times through; and every input that fails the range, fps or
width check (reaching that check) gets the corresponding warning dialog and
no worker. -/
theorem c6_on_export_validation_bounds :
    (∀ env st2 e2 opts op wd,
      (on_export env).1 = .started st2 e2 opts op wd →
      PFloat.le e2 st2 = false ∧ 1 ≤ opts.fps ∧ opts.fps ≤ 60 ∧
        (∀ w, opts.width = some w → 0 < w)) ∧
    (∀ env st e, PFloat.le e st = true →
      exportChecks env st e =
        (.warnDialog "Invalid range" "End time must be greater than start time.", [])) ∧
    (∀ env st e, PFloat.le e st = false → env.fps_get = none →
      exportChecks env st e =
        (.warnDialog "Invalid FPS" "FPS must be an integer between 1 and 60.", [])) ∧
    (∀ env st e f, PFloat.le e st = false → env.fps_get = some f →
      ¬ (1 ≤ f ∧ f ≤ 60) →
      exportChecks env st e =
        (.warnDialog "Invalid FPS" "FPS must be an integer between 1 and 60.", [])) ∧
    (∀ env st e f, PFloat.le e st = false → env.fps_get = some f →
      (1 ≤ f ∧ f ≤ 60) → widthCheck env.width_str = none →
      exportChecks env st e =
        (.warnDialog "Invalid width" "Width must be a positive integer.", [])) := by
  refine ⟨?_, ?_, ?_, ?_, ?_⟩
  · intro env st2 e2 opts op wd h
    rcases on_export_dispatch env with ⟨st, e, heq, -, -⟩ | ⟨hno, -⟩
    · rw [heq] at h
      obtain ⟨rfl, rfl, hle, h1, h2, h3⟩ :=
        exportChecks_started_inv env st e st2 e2 opts op wd h
      exact ⟨hle, h1, h2, h3⟩
    · exact absurd h (hno _ _ _ _ _)
  · intro env st e hle
    unfold exportChecks
    rw [if_pos hle]
  · intro env st e hle hf
    unfold exportChecks
    rw [if_neg (by simp [hle]), hf]
  · intro env st e f hle hf hb
    unfold exportChecks
    rw [if_neg (by simp [hle]), hf]
    split
    · rfl
    · rename_i w hw2
      injection hw2 with h
      subst h
      rw [if_pos hb]
  · intro env st e f hle hf hb hw
    unfold exportChecks
    rw [if_neg (by simp [hle]), hf, hw]
    split
    · rename_i heq
      exact Option.noConfusion heq
    · rename_i w hw2
      injection hw2 with h
      subst h
      rw [if_neg (not_not_intro hb)]

/-- Closed witness for `c6_on_export_validation_bounds`: a concrete
environment whose fps is out of bounds is warned about and not started. -/
theorem c6_on_export_validation_bounds_witness :
    exportChecks { ffmpeg_ok := true, input_path := some "in.mp4",
                   start_str := "0", end_str := "1", duration := none,
                   fps_get := some 0, width_str := "", out_str := "out.gif",
                   save_dialog := none, method := "palette", workdir := "/tmp/w" }
        (.finite 0) (.finite 1) =
      (.warnDialog "Invalid FPS" "FPS must be an integer between 1 and 60.", []) :=
  c6_on_export_validation_bounds.2.2.2.1
    { ffmpeg_ok := true, input_path := some "in.mp4",
      start_str := "0", end_str := "1", duration := none,
      fps_get := some 0, width_str := "", out_str := "out.gif",
      save_dialog := none, method := "palette", workdir := "/tmp/w" }
    (.finite 0) (.finite 1) 0 (by with_unfolding_all rfl) rfl (by decide)

/-- The function `exportChecks` writes a log line only on the started path. -/
theorem exportChecks_log_iff_started (env : ExportEnv) (st e : PFloat) :
    (exportChecks env st e).2 = [] ∨
    ∃ fps width p, exportChecks env st e =
      (.started st e ⟨fps, width, env.method⟩ p env.workdir,
       ["Working directory: " ++ env.workdir]) := by
  unfold exportChecks
  split
  · exact Or.inl rfl
  · split
    · exact Or.inl rfl
    · split
      · exact Or.inl rfl
      · split
        · exact Or.inl rfl
        · split
          · exact Or.inl rfl
          · exact Or.inr ⟨_, _, _, rfl⟩

/-- C8 counterexample: a validation failure (fps 0, out of [1,60]) is
surfaced as a warning dialog with NO log line — `on_export` writes nothing
to the log on any of its validation-failure paths, contradicting the
claimed "both a dialog and a log line". -/
theorem c8_validation_failure_logs_nothing :
    on_export { ffmpeg_ok := true, input_path := some "in.mp4",
                start_str := "0", end_str := "1", duration := none,
                fps_get := some 0, width_str := "", out_str := "out.gif",
                save_dialog := none, method := "palette", workdir := "/tmp/w" } =
      (.warnDialog "Invalid FPS" "FPS must be an integer between 1 and 60.",
       ([] : List String)) := by
  with_unfolding_all rfl

/-- C8 (amended): failures are caught where they occur and are never fatal,
but the surfacing differs by kind: validation failures and the missing-tool
failure show a dialog and write NO log line, while an external process
failing with non-zero exit in the worker produces both an error dialog and
a `Failed:` log line; no command is invoked twice (nothing is retried), no
exception escapes, and the lock is released so a later attempt can run. -/
theorem c8_failure_surfacing_amended :
    (∀ env t m, ((on_export env).1 = .warnDialog t m ∨ (on_export env).1 = .errDialog t m) →
      (on_export env).2 = []) ∧
    (∀ (R : Runner) i a b (opts : ExportOptions) op wd ss ts,
      opts.method = "palette" →
      format_time_seconds (some a) = .ok ss →
      format_time_seconds (some b) = .ok ts →
      (R (paletteCmd ss ts i opts.fps opts.width wd)).rc ≠ 0 →
      (export_worker false R i a b opts op wd).dialogs =
        [("error", "Export failed",
          "Palette generation failed: " ++
            strOr (R (paletteCmd ss ts i opts.fps opts.width wd)).err
              (R (paletteCmd ss ts i opts.fps opts.width wd)).out)] ∧
      ("Failed: " ++ ("Palette generation failed: " ++
          strOr (R (paletteCmd ss ts i opts.fps opts.width wd)).err
            (R (paletteCmd ss ts i opts.fps opts.width wd)).out)) ∈
        (export_worker false R i a b opts op wd).logs ∧
      (export_worker false R i a b opts op wd).invocations =
        [paletteCmd ss ts i opts.fps opts.width wd] ∧
      (export_worker false R i a b opts op wd).raised = none ∧
      (export_worker false R i a b opts op wd).lockAfter = false) ∧
    (∀ (R : Runner) i a b (opts : ExportOptions) op wd ss ts,
      opts.method = "palette" →
      format_time_seconds (some a) = .ok ss →
      format_time_seconds (some b) = .ok ts →
      (R (paletteCmd ss ts i opts.fps opts.width wd)).rc = 0 →
      (R (gifCmd ss ts i opts.fps opts.width op wd)).rc ≠ 0 →
      (export_worker false R i a b opts op wd).invocations =
        [paletteCmd ss ts i opts.fps opts.width wd,
         gifCmd ss ts i opts.fps opts.width op wd] ∧
      (export_worker false R i a b opts op wd).invocations.Nodup ∧
      (export_worker false R i a b opts op wd).dialogs =
        [("error", "Export failed",
          "Palette-based gif creation failed: " ++
            strOr (R (gifCmd ss ts i opts.fps opts.width op wd)).err
              (R (gifCmd ss ts i opts.fps opts.width op wd)).out)] ∧
      (export_worker false R i a b opts op wd).raised = none) ∧
    (∀ (R : Runner) i a b (opts : ExportOptions) op wd ss ts,
      opts.method ≠ "palette" →
      format_time_seconds (some a) = .ok ss →
      format_time_seconds (some b) = .ok ts →
      (R (singleCmd ss ts i opts.fps opts.width op)).rc ≠ 0 →
      (export_worker false R i a b opts op wd).dialogs =
        [("error", "Export failed",
          "Single-step GIF creation failed: " ++
            strOr (R (singleCmd ss ts i opts.fps opts.width op)).err
              (R (singleCmd ss ts i opts.fps opts.width op)).out)] ∧
      ("Failed: " ++ ("Single-step GIF creation failed: " ++
          strOr (R (singleCmd ss ts i opts.fps opts.width op)).err
            (R (singleCmd ss ts i opts.fps opts.width op)).out)) ∈
        (export_worker false R i a b opts op wd).logs ∧
      (export_worker false R i a b opts op wd).invocations =
        [singleCmd ss ts i opts.fps opts.width op] ∧
      (export_worker false R i a b opts op wd).raised = none ∧
      (export_worker false R i a b opts op wd).lockAfter = false) := by
  refine ⟨?_, ?_, ?_, ?_⟩
  · intro env t m h
    rcases on_export_dispatch env with ⟨st, e, heq, -, -⟩ | ⟨-, h2⟩
    · rw [heq] at h ⊢
      rcases exportChecks_log_iff_started env st e with h0 | ⟨fps, width, p, heq2⟩
      · exact h0
      · rw [heq2] at h
        rcases h with h | h <;> simp at h
    · exact h2
  · intro R i a b opts op wd ss ts hm h1 h2 hrc
    have hbody : run_ffmpeg_palette R i a b opts.fps opts.width op wd =
        .ok ((false, "Palette generation failed: " ++
               strOr (R (paletteCmd ss ts i opts.fps opts.width wd)).err
                 (R (paletteCmd ss ts i opts.fps opts.width wd)).out),
             [paletteCmd ss ts i opts.fps opts.width wd],
             ["Running palette generation:\n" ++
               joinQuoted (paletteCmd ss ts i opts.fps opts.width wd)]) := by
      unfold run_ffmpeg_palette
      rw [h1, h2]
      dsimp only
      rw [if_pos hrc]
    have hw : export_worker false R i a b opts op wd =
        workerFinish (startLogLine i a b opts) op
          (run_ffmpeg_palette R i a b opts.fps opts.width op wd) := by
      unfold export_worker
      rw [if_neg (by simp), if_pos hm]
    rw [hw, hbody]
    refine ⟨rfl, ?_, rfl, rfl, rfl⟩
    simp [workerFinish]
  · intro R i a b opts op wd ss ts hm h1 h2 hrc1 hrc2
    have hbody : run_ffmpeg_palette R i a b opts.fps opts.width op wd =
        .ok ((false, "Palette-based gif creation failed: " ++
               strOr (R (gifCmd ss ts i opts.fps opts.width op wd)).err
                 (R (gifCmd ss ts i opts.fps opts.width op wd)).out),
             [paletteCmd ss ts i opts.fps opts.width wd,
              gifCmd ss ts i opts.fps opts.width op wd],
             ["Running palette generation:\n" ++
               joinQuoted (paletteCmd ss ts i opts.fps opts.width wd),
              "Running palette use:\n" ++
               joinQuoted (gifCmd ss ts i opts.fps opts.width op wd)]) := by
      unfold run_ffmpeg_palette
      rw [h1, h2]
      dsimp only
      rw [if_neg (not_not_intro hrc1), if_pos hrc2]
    have hw : export_worker false R i a b opts op wd =
        workerFinish (startLogLine i a b opts) op
          (run_ffmpeg_palette R i a b opts.fps opts.width op wd) := by
      unfold export_worker
      rw [if_neg (by simp), if_pos hm]
    rw [hw, hbody]
    refine ⟨rfl, ?_, rfl, rfl⟩
    have hne : paletteCmd ss ts i opts.fps opts.width wd ≠
        gifCmd ss ts i opts.fps opts.width op wd := by
      intro hc
      have := congrArg List.length hc
      simp [paletteCmd, gifCmd] at this
    simp [workerFinish, hne]
  · intro R i a b opts op wd ss ts hm h1 h2 hrc
    have hbody : run_ffmpeg_single R i a b opts.fps opts.width op =
        .ok ((false, "Single-step GIF creation failed: " ++
               strOr (R (singleCmd ss ts i opts.fps opts.width op)).err
                 (R (singleCmd ss ts i opts.fps opts.width op)).out),
             [singleCmd ss ts i opts.fps opts.width op],
             ["Running single-step command:\n" ++
               joinQuoted (singleCmd ss ts i opts.fps opts.width op)]) := by
      unfold run_ffmpeg_single
      rw [h1, h2]
      dsimp only
      rw [if_pos hrc]
    have hw : export_worker false R i a b opts op wd =
        workerFinish (startLogLine i a b opts) op
          (run_ffmpeg_single R i a b opts.fps opts.width op) := by
      unfold export_worker
      rw [if_neg (by simp), if_neg hm]
    rw [hw, hbody]
    refine ⟨rfl, ?_, rfl, rfl, rfl⟩
    simp [workerFinish]

/-- Closed witness for `c8_failure_surfacing_amended`: a concrete failing
single-step export shows the error dialog. -/
theorem c8_failure_surfacing_amended_witness :
    (export_worker false (fun _ => ⟨1, "", "boom"⟩) "in.mp4"
        (.finite 0) (.finite 0) ⟨10, none, "single"⟩ "out.gif" "/tmp/w").dialogs =
      [("error", "Export failed", "Single-step GIF creation failed: boom")] :=
  (c8_failure_surfacing_amended.2.2.2 (fun _ => ⟨1, "", "boom"⟩) "in.mp4"
      (.finite 0) (.finite 0) ⟨10, none, "single"⟩ "out.gif" "/tmp/w"
      "00:00:00.000" "00:00:00.000" (by decide)
      (by with_unfolding_all rfl) (by with_unfolding_all rfl) (by decide)).1

/-! ## Correctness of the evaluation-friendly arithmetic helpers -/

/-- The rational power of two computed by `qpow2` is `(2:ℚ) ^ e`. -/
theorem qpow2_eq (e : ℤ) : qpow2 e = (2:ℚ) ^ e := by
  unfold qpow2
  split
  · rename_i h
    rw [Nat.shiftLeft_eq, one_mul]
    push_cast
    rw [← zpow_natCast (2:ℚ), Int.toNat_of_nonneg h]
  · rename_i h
    rw [Nat.shiftLeft_eq, one_mul, Rat.mkRat_eq_div]
    push_cast
    rw [← zpow_natCast (2:ℚ), Int.toNat_of_nonneg (by omega : (0:ℤ) ≤ -e),
      one_div, ← zpow_neg, neg_neg]

/-- The fast exponentiation agrees with `Nat.pow` when given enough fuel. -/
theorem powFuel_eq (b : ℕ) : ∀ fuel e : ℕ, e ≤ fuel → powFuel b fuel e = b ^ e := by
  intro fuel
  induction fuel with
  | zero =>
    intro e h
    have he : e = 0 := by omega
    subst he
    rfl
  | succ f ih =>
    intro e h
    rw [powFuel]
    split
    · rename_i he
      subst he
      rfl
    · rename_i he
      rw [ih (e / 2) (by omega)]
      rcases Nat.even_or_odd e with ⟨k, hk⟩ | ⟨k, hk⟩
      · subst hk
        have h2 : (k + k) % 2 = 0 := by omega
        have hdiv : (k + k) / 2 + (k + k) / 2 = k + k := by omega
        rw [if_pos h2, ← pow_add, hdiv]
      · subst hk
        have h2 : (2 * k + 1) % 2 ≠ 0 := by omega
        have hdiv : (2 * k + 1) / 2 + (2 * k + 1) / 2 = 2 * k := by omega
        rw [if_neg h2, ← pow_add, hdiv, ← pow_succ]

/-- The function `natPow10` is the power of ten it claims to be. -/
theorem natPow10_eq (e : ℕ) : natPow10 e = 10 ^ e :=
  powFuel_eq 10 e e le_rfl

/-- The fuel-driven base-2 logarithm agrees with `Nat.log 2`. -/
theorem log2Fuel_eq : ∀ fuel n : ℕ, n ≤ fuel → log2Fuel fuel n = Nat.log 2 n := by
  intro fuel
  induction fuel with
  | zero =>
    intro n h
    have hn : n = 0 := by omega
    subst hn
    simp [log2Fuel]
  | succ f ih =>
    intro n h
    rw [log2Fuel]
    split
    · rename_i h2
      rw [ih (n / 2) (by omega)]
      conv_rhs => rw [Nat.log]
      rw [dif_pos ⟨h2, by norm_num⟩]
    · rename_i h2
      conv_rhs => rw [Nat.log]
      rw [dif_neg (fun hc => h2 hc.1)]

/-- The function `natLog2` is the floor base-2 logarithm. -/
theorem natLog2_eq (n : ℕ) : natLog2 n = Nat.log 2 n :=
  log2Fuel_eq n n le_rfl

/-- The round-to-nearest-even integer is within one half of its argument. -/
theorem rne_bounds (x : ℚ) : x - 1/2 ≤ (rne x : ℚ) ∧ (rne x : ℚ) ≤ x + 1/2 := by
  have hfl : (⌊x⌋ : ℚ) ≤ x := Int.floor_le x
  have hfu : x < ⌊x⌋ + 1 := Int.lt_floor_add_one x
  simp only [rne]
  split
  · rename_i h
    constructor <;> [linarith; linarith]
  · split
    · rename_i h1 h2
      push_cast
      constructor <;> linarith
    · rename_i h1 h2
      have hr1 := not_lt.mp h1
      have hr2 := not_lt.mp h2
      split
      · constructor <;> linarith
      · push_cast
        constructor <;> linarith

/-- Rounding an integer returns it unchanged. -/
theorem rne_intCast (k : ℤ) : rne (k : ℚ) = k := by
  simp [rne]

/-- The exponent computed by `dExp` brackets `|q|` between consecutive
powers of two. -/
theorem dExp_spec (q : ℚ) (hq : q ≠ 0) :
    (2:ℚ) ^ dExp q ≤ |q| ∧ |q| < (2:ℚ) ^ (dExp q + 1) := by
  have hnum : q.num ≠ 0 := Rat.num_ne_zero.mpr hq
  have hn0 : q.num.natAbs ≠ 0 := Int.natAbs_ne_zero.mpr hnum
  have hd0 : 0 < q.den := q.den_pos
  set n := q.num.natAbs with hn
  set d := q.den with hd
  have hdQ : (0:ℚ) < (d:ℚ) := by exact_mod_cast hd0
  have habs : |q| = (n : ℚ) / (d : ℚ) := by
    rw [← Rat.num_div_den q, abs_div, hn, Int.cast_natAbs, Int.cast_abs]
    congr 1
    exact abs_of_pos hdQ
  have h2pos : ∀ t : ℤ, (0:ℚ) < 2 ^ t := fun t => zpow_pos (by norm_num) t
  have hQ1 : (2:ℚ) ^ (Nat.log 2 n : ℤ) ≤ (n : ℚ) := by
    rw [zpow_natCast]
    exact_mod_cast Nat.pow_log_le_self 2 hn0
  have hQ2 : (n:ℚ) < 2 ^ ((Nat.log 2 n : ℤ) + 1) := by
    rw [show ((Nat.log 2 n : ℤ) + 1) = ((Nat.log 2 n + 1 : ℕ) : ℤ) by push_cast; ring,
      zpow_natCast]
    exact_mod_cast Nat.lt_pow_succ_log_self (by norm_num) n
  have hQ3 : (2:ℚ) ^ (Nat.log 2 d : ℤ) ≤ (d : ℚ) := by
    rw [zpow_natCast]
    exact_mod_cast Nat.pow_log_le_self 2 (by omega)
  have hQ4 : (d:ℚ) < 2 ^ ((Nat.log 2 d : ℤ) + 1) := by
    rw [show ((Nat.log 2 d : ℤ) + 1) = ((Nat.log 2 d + 1 : ℕ) : ℤ) by push_cast; ring,
      zpow_natCast]
    exact_mod_cast Nat.lt_pow_succ_log_self (by norm_num) d
  set a : ℤ := (Nat.log 2 n : ℤ) with ha
  set b : ℤ := (Nat.log 2 d : ℤ) with hb
  have hupper : |q| < (2:ℚ) ^ (a - b + 1) := by
    rw [habs, div_lt_iff₀ hdQ]
    calc (n:ℚ) < 2 ^ (a + 1) := hQ2
    _ = 2 ^ (a - b + 1) * 2 ^ b := by
        rw [← zpow_add₀ (two_ne_zero : (2:ℚ) ≠ 0)]
        congr 1
        ring
    _ ≤ 2 ^ (a - b + 1) * d := by
        exact mul_le_mul_of_nonneg_left hQ3 (le_of_lt (h2pos _))
  have hlower : (2:ℚ) ^ (a - b - 1) < |q| := by
    rw [habs, lt_div_iff₀ hdQ]
    calc (2:ℚ) ^ (a - b - 1) * (d:ℚ) < 2 ^ (a - b - 1) * 2 ^ (b + 1) :=
      mul_lt_mul_of_pos_left hQ4 (h2pos _)
    _ = 2 ^ a := by
        rw [← zpow_add₀ (two_ne_zero : (2:ℚ) ≠ 0)]
        congr 1
        ring
    _ ≤ (n:ℚ) := hQ1
  simp only [dExp, natLog2_eq, qpow2_eq, ← hn, ← hd, ← ha, ← hb]
  split
  · rename_i hcase
    exact ⟨hcase, hupper⟩
  · rename_i hcase
    refine ⟨le_of_lt hlower, ?_⟩
    rw [show a - b - 1 + 1 = a - b by ring]
    exact lt_of_not_le hcase

/-- A rational is a binary64 value when it is `m * 2^s` with a 53-bit
significand and an exponent reaching down to the subnormal range. -/
def IsDouble (q : ℚ) : Prop :=
  ∃ m s : ℤ, |m| < 2 ^ 53 ∧ -1074 ≤ s ∧ q = (m : ℚ) * 2 ^ s

/-- The grid scale of a double `m * 2^s` is at most `s`: such a value lies
on its own rounding grid. -/
theorem dScale_le (m s : ℤ) (hm : |m| < 2 ^ 53) (hs : -1074 ≤ s)
    (hq0 : (m:ℚ) * 2 ^ s ≠ 0) : dScale ((m:ℚ) * 2 ^ s) ≤ s := by
  unfold dScale
  apply max_le _ hs
  have h1 := (dExp_spec _ hq0).1
  have h2pos : ∀ t : ℤ, (0:ℚ) < 2 ^ t := fun t => zpow_pos (by norm_num) t
  have hmq : |(m:ℚ)| < (2:ℚ) ^ (53:ℤ) := by
    rw [← Int.cast_abs]
    rw [show ((53:ℤ)) = ((53:ℕ):ℤ) by norm_num, zpow_natCast]
    exact_mod_cast hm
  have habs : |(m:ℚ) * 2 ^ s| < (2:ℚ) ^ (s + 53) := by
    rw [abs_mul, abs_of_pos (h2pos s)]
    calc |(m:ℚ)| * 2 ^ s < (2:ℚ) ^ (53:ℤ) * 2 ^ s :=
      mul_lt_mul_of_pos_right hmq (h2pos s)
    _ = 2 ^ (s + 53) := by
        rw [← zpow_add₀ (two_ne_zero : (2:ℚ) ≠ 0)]
        congr 1
        ring
  have hcmp : (2:ℚ) ^ dExp ((m:ℚ) * 2 ^ s) < 2 ^ (s + 53) := lt_of_le_of_lt h1 habs
  have := (zpow_lt_zpow_iff_right₀ (by norm_num : (1:ℚ) < 2)).mp hcmp
  omega

/-- Rounding to the binary64 grid fixes every binary64 value. -/
theorem flQ_eq_self (q : ℚ) (hd : IsDouble q) : flQ q = q := by
  obtain ⟨m, s, hm, hs, rfl⟩ := hd
  by_cases hq0 : (m:ℚ) * 2 ^ s = 0
  · simp [flQ, hq0]
  · have hsle : dScale ((m:ℚ) * 2 ^ s) ≤ s := dScale_le m s hm hs hq0
    unfold flQ
    rw [if_neg hq0, qpow2_eq, qpow2_eq]
    set t := dScale ((m:ℚ) * 2 ^ s) with ht
    have hpow : (2:ℚ) ^ s * 2 ^ (-t) = 2 ^ (s - t) := by
      rw [sub_eq_add_neg, zpow_add₀ (two_ne_zero : (2:ℚ) ≠ 0)]
    have hint : (m:ℚ) * 2 ^ s * 2 ^ (-t) = ((m * 2 ^ (s - t).toNat : ℤ) : ℚ) := by
      rw [mul_assoc, hpow]
      push_cast
      rw [← zpow_natCast (2:ℚ), Int.toNat_of_nonneg (by omega : (0:ℤ) ≤ s - t)]
    rw [hint, rne_intCast]
    push_cast
    rw [← zpow_natCast (2:ℚ), Int.toNat_of_nonneg (by omega : (0:ℤ) ≤ s - t),
      mul_assoc, ← zpow_add₀ (two_ne_zero : (2:ℚ) ≠ 0)]
    congr 1
    ring

/-- The rounding error of `flQ` is at most half the grid spacing. -/
theorem flQ_err (x : ℚ) : |flQ x - x| ≤ (2:ℚ) ^ (dScale x - 1) := by
  by_cases hx : x = 0
  · rw [hx]
    simp only [flQ, if_pos rfl, sub_zero, abs_zero]
    exact le_of_lt (zpow_pos (by norm_num) _)
  · unfold flQ
    rw [if_neg hx, qpow2_eq, qpow2_eq]
    set t := dScale x with ht
    have h2t : (0:ℚ) < 2 ^ t := zpow_pos (by norm_num) t
    have hz : x * 2 ^ (-t) * 2 ^ t = x := by
      rw [mul_assoc, ← zpow_add₀ (two_ne_zero : (2:ℚ) ≠ 0)]
      simp
    have hb := rne_bounds (x * 2 ^ (-t))
    calc |(rne (x * 2 ^ (-t)) : ℚ) * 2 ^ t - x|
        = |(rne (x * 2 ^ (-t)) : ℚ) - x * 2 ^ (-t)| * 2 ^ t := by
          rw [show (rne (x * 2 ^ (-t)) : ℚ) * 2 ^ t - x =
              ((rne (x * 2 ^ (-t)) : ℚ) - x * 2 ^ (-t)) * 2 ^ t by
                rw [sub_mul, hz],
            abs_mul, abs_of_pos h2t]
    _ ≤ (1/2) * 2 ^ t := by
        apply mul_le_mul_of_nonneg_right _ (le_of_lt h2t)
        rw [abs_le]
        constructor <;> linarith [hb.1, hb.2]
    _ = 2 ^ (t - 1) := by
        rw [zpow_sub₀ (two_ne_zero : (2:ℚ) ≠ 0), zpow_one]
        ring

/-- If an integer lies below `x` and `x` sits on a grid at least as fine as
the integers, the integer also lies below the rounded value. -/
theorem flQ_ge_int (x : ℚ) (k : ℤ) (hx : x ≠ 0) (ht : dScale x ≤ 0)
    (hk : (k:ℚ) ≤ x) : (k:ℚ) ≤ flQ x := by
  unfold flQ
  rw [if_neg hx, qpow2_eq, qpow2_eq]
  set t := dScale x with htd
  have h2t : (0:ℚ) < 2 ^ t := zpow_pos (by norm_num) t
  have h2nt : (0:ℚ) < 2 ^ (-t) := zpow_pos (by norm_num) (-t)
  have hKQ : ((k * 2 ^ (-t).toNat : ℤ) : ℚ) = (k:ℚ) * 2 ^ (-t) := by
    push_cast
    rw [← zpow_natCast (2:ℚ), Int.toNat_of_nonneg (by omega : (0:ℤ) ≤ -t)]
  have hzK : ((k * 2 ^ (-t).toNat : ℤ) : ℚ) ≤ x * 2 ^ (-t) := by
    rw [hKQ]
    exact mul_le_mul_of_nonneg_right hk (le_of_lt h2nt)
  have hrne : (k * 2 ^ (-t).toNat : ℤ) ≤ rne (x * 2 ^ (-t)) := by
    have hb := (rne_bounds (x * 2 ^ (-t))).1
    have h2 : ((k * 2 ^ (-t).toNat : ℤ) : ℚ) < (rne (x * 2 ^ (-t)) : ℚ) + 1 := by
      linarith
    exact Int.lt_add_one_iff.mp (by exact_mod_cast h2)
  calc (k:ℚ) = ((k * 2 ^ (-t).toNat : ℤ) : ℚ) * 2 ^ t := by
        rw [hKQ, mul_assoc, ← zpow_add₀ (two_ne_zero : (2:ℚ) ≠ 0)]
        simp
  _ ≤ (rne (x * 2 ^ (-t)) : ℚ) * 2 ^ t :=
      mul_le_mul_of_nonneg_right (by exact_mod_cast hrne) (le_of_lt h2t)

/-- Casting a natural power of two written with `Int.toNat`. -/
theorem q2cast (s : ℤ) (h : 0 ≤ s) : (((2:ℤ) ^ s.toNat : ℤ) : ℚ) = (2:ℚ) ^ s := by
  push_cast
  rw [← zpow_natCast (2:ℚ), Int.toNat_of_nonneg h]

/-- The fractional part of a nonnegative binary64 value is itself a
binary64 value (the subtraction `s - math.floor(s)` is exact). -/
theorem fract_isDouble (q : ℚ) (hd : IsDouble q) (h0 : 0 ≤ q) :
    IsDouble (Int.fract q) := by
  obtain ⟨m, s, hm, hs, rfl⟩ := hd
  have h2pos : ∀ t : ℤ, (0:ℚ) < 2 ^ t := fun t => zpow_pos (by norm_num) t
  by_cases hs0 : 0 ≤ s
  · have hint : (m:ℚ) * 2 ^ s = ((m * 2 ^ s.toNat : ℤ) : ℚ) := by
      push_cast
      rw [← zpow_natCast (2:ℚ), Int.toNat_of_nonneg hs0]
    rw [hint, Int.fract_intCast]
    exact ⟨0, 0, by norm_num, by norm_num, by norm_num⟩
  · push_neg at hs0
    by_cases hdeep : s < -53
    · have hmq : |(m:ℚ)| < (2:ℚ) ^ (53:ℤ) := by
        rw [← Int.cast_abs, show ((53:ℤ)) = ((53:ℕ):ℤ) by norm_num, zpow_natCast]
        exact_mod_cast hm
      have hq1 : (m:ℚ) * 2 ^ s < 1 := by
        calc (m:ℚ) * 2 ^ s ≤ |(m:ℚ)| * 2 ^ s :=
          mul_le_mul_of_nonneg_right (le_abs_self _) (le_of_lt (h2pos s))
        _ < (2:ℚ) ^ (53:ℤ) * 2 ^ s := mul_lt_mul_of_pos_right hmq (h2pos s)
        _ = 2 ^ (s + 53) := by
            rw [← zpow_add₀ (two_ne_zero : (2:ℚ) ≠ 0)]
            congr 1
            ring
        _ ≤ 2 ^ (-1:ℤ) := zpow_le_zpow_right₀ (by norm_num) (by omega)
        _ < 1 := by
            rw [zpow_neg_one]
            norm_num
      rw [Int.fract_eq_self.mpr ⟨h0, hq1⟩]
      exact ⟨m, s, hm, hs, rfl⟩
    · push_neg at hdeep
      set T := ⌊(m:ℚ) * 2 ^ s⌋ with hT
      have h1 : (2:ℚ) ^ s * 2 ^ (-s) = 1 := by
        rw [← zpow_add₀ (two_ne_zero : (2:ℚ) ≠ 0)]
        simp
      have key : ((m - T * 2 ^ (-s).toNat : ℤ) : ℚ) =
          Int.fract ((m:ℚ) * 2 ^ s) * 2 ^ (-s) := by
        push_cast
        rw [← zpow_natCast (2:ℚ), Int.toNat_of_nonneg (by omega : (0:ℤ) ≤ -s),
          Int.fract, sub_mul, mul_assoc, h1, mul_one]
      refine ⟨m - T * 2 ^ (-s).toNat, s, ?_, hs, ?_⟩
      · have hfr0 : 0 ≤ Int.fract ((m:ℚ) * 2 ^ s) := Int.fract_nonneg _
        have hfr1 : Int.fract ((m:ℚ) * 2 ^ s) < 1 := Int.fract_lt_one _
        have habsq : |((m - T * 2 ^ (-s).toNat : ℤ) : ℚ)| < (2:ℚ) ^ (-s) := by
          rw [key, abs_of_nonneg (by positivity)]
          calc Int.fract ((m:ℚ) * 2 ^ s) * 2 ^ (-s) < 1 * 2 ^ (-s) :=
            mul_lt_mul_of_pos_right hfr1 (h2pos _)
          _ = 2 ^ (-s) := one_mul _
        have habsi : |m - T * 2 ^ (-s).toNat| < 2 ^ (-s).toNat := by
          have h2 : ((|m - T * 2 ^ (-s).toNat| : ℤ) : ℚ) <
              (((2:ℤ) ^ (-s).toNat : ℤ) : ℚ) := by
            rw [Int.cast_abs, q2cast (-s) (by omega)]
            exact habsq
          exact_mod_cast h2
        calc |m - T * 2 ^ (-s).toNat| < 2 ^ (-s).toNat := habsi
        _ ≤ 2 ^ 53 := by
            apply pow_le_pow_right₀ (by norm_num : (1:ℤ) ≤ 2)
            omega
      · have h1' : (2:ℚ) ^ (-s) * 2 ^ s = 1 := by
          rw [← zpow_add₀ (two_ne_zero : (2:ℚ) ≠ 0)]
          simp
        rw [key, mul_assoc, h1', mul_one]

/-- A nonnegative binary64 value below one is at most `1 - 2^-53`. -/
theorem double_lt_one_bound (r : ℚ) (hd : IsDouble r) (h0 : 0 ≤ r) (h1 : r < 1) :
    r ≤ 1 - (2:ℚ) ^ (-53:ℤ) := by
  obtain ⟨m, s, hm, hs, rfl⟩ := hd
  have h2pos : ∀ t : ℤ, (0:ℚ) < 2 ^ t := fun t => zpow_pos (by norm_num) t
  have h53le : (2:ℚ) ^ (-53:ℤ) ≤ 2 ^ (-1:ℤ) :=
    zpow_le_zpow_right₀ (by norm_num) (by omega)
  have hhalf : (2:ℚ) ^ (-1:ℤ) = 1/2 := by
    rw [zpow_neg_one]
    norm_num
  have hm0 : 0 ≤ m := by
    by_contra hneg
    push_neg at hneg
    have hmq : (m:ℚ) < 0 := by exact_mod_cast hneg
    have := mul_neg_of_neg_of_pos hmq (h2pos s)
    linarith
  by_cases hs53 : s < -53
  · have hmq : (m:ℚ) < (2:ℚ) ^ (53:ℤ) := by
      rw [show ((53:ℤ)) = ((53:ℕ):ℤ) by norm_num, zpow_natCast]
      exact_mod_cast lt_of_abs_lt hm
    have hsmall : (m:ℚ) * 2 ^ s < 2 ^ (-1:ℤ) := by
      calc (m:ℚ) * 2 ^ s < (2:ℚ) ^ (53:ℤ) * 2 ^ s :=
        mul_lt_mul_of_pos_right hmq (h2pos s)
      _ = 2 ^ (s + 53) := by
          rw [← zpow_add₀ (two_ne_zero : (2:ℚ) ≠ 0)]
          congr 1
          ring
      _ ≤ 2 ^ (-1:ℤ) := zpow_le_zpow_right₀ (by norm_num) (by omega)
    have hval : (2:ℚ) ^ (-53:ℤ) = 1/9007199254740992 := by norm_num
    rw [hval]
    rw [hhalf] at hsmall
    linarith
  · push_neg at hs53
    by_cases hsneg : s < 0
    · have hcast : (((2:ℤ) ^ (-s).toNat : ℤ) : ℚ) = (2:ℚ) ^ (-s) := q2cast (-s) (by omega)
      have hmlt : (m:ℚ) < 2 ^ (-s) := by
        have step : (m:ℚ) * 2 ^ s * 2 ^ (-s) < 1 * 2 ^ (-s) :=
          mul_lt_mul_of_pos_right h1 (h2pos _)
        rw [one_mul, mul_assoc, ← zpow_add₀ (two_ne_zero : (2:ℚ) ≠ 0)] at step
        simpa using step
      have hmint : m < 2 ^ (-s).toNat := by
        have : ((m:ℤ) : ℚ) < (((2:ℤ) ^ (-s).toNat : ℤ) : ℚ) := by
          rw [hcast]
          exact hmlt
        exact_mod_cast this
      have hm_le : (m:ℚ) ≤ 2 ^ (-s) - 1 := by
        have hle : m ≤ 2 ^ (-s).toNat - 1 := by omega
        have : ((m:ℤ) : ℚ) ≤ (((2:ℤ) ^ (-s).toNat - 1 : ℤ) : ℚ) := by exact_mod_cast hle
        rw [Int.cast_sub, hcast] at this
        simpa using this
      have h1' : (2:ℚ) ^ (-s) * 2 ^ s = 1 := by
        rw [← zpow_add₀ (two_ne_zero : (2:ℚ) ≠ 0)]
        simp
      have hbound : (m:ℚ) * 2 ^ s ≤ 1 - 2 ^ s := by
        calc (m:ℚ) * 2 ^ s ≤ ((2:ℚ) ^ (-s) - 1) * 2 ^ s :=
          mul_le_mul_of_nonneg_right hm_le (le_of_lt (h2pos s))
        _ = 1 - 2 ^ s := by rw [sub_mul, h1', one_mul]
      have hsge : (2:ℚ) ^ (-53:ℤ) ≤ 2 ^ s := zpow_le_zpow_right₀ (by norm_num) (by omega)
      have hval : (2:ℚ) ^ (-53:ℤ) = 1/9007199254740992 := by norm_num
      rw [hval] at hsge ⊢
      linarith
    · push_neg at hsneg
      have h2ge : (1:ℚ) ≤ 2 ^ s := by
        have := zpow_le_zpow_right₀ (by norm_num : (1:ℚ) ≤ 2) hsneg
        simpa using this
      have hmz : m = 0 := by
        by_contra hne
        have hm1 : (1:ℚ) ≤ (m:ℚ) := by exact_mod_cast (by omega : (1:ℤ) ≤ m)
        have hr1 : (1:ℚ) ≤ (m:ℚ) * 2 ^ s := by
          calc (1:ℚ) = 1 * 1 := by ring
          _ ≤ (m:ℚ) * 2 ^ s := mul_le_mul hm1 h2ge (by norm_num) (by linarith)
        linarith
      rw [hmz]
      push_cast
      rw [zero_mul]
      have hval : (2:ℚ) ^ (-53:ℤ) = 1/9007199254740992 := by norm_num
      rw [hval]
      norm_num

/-- A bound `|x| < 2^k` bounds the grid scale. -/
theorem dScale_lt_bound (x : ℚ) (k : ℤ) (hx : x ≠ 0) (h : |x| < (2:ℚ) ^ k) :
    dScale x ≤ max (k - 53) (-1074) := by
  unfold dScale
  have h1 := (dExp_spec x hx).1
  have hcmp : (2:ℚ) ^ dExp x < 2 ^ k := lt_of_le_of_lt h1 h
  have hlt := (zpow_lt_zpow_iff_right₀ (by norm_num : (1:ℚ) < 2)).mp hcmp
  exact max_le_max (by omega) le_rfl

/-- Two-digit zero-padding on the range of minute/second fields. -/
theorem zfill2_len_fin : ∀ n : Fin 60, (zfill2 (n : ℤ)).length = 2 := by decide

set_option maxRecDepth 40000 in
/-- Three-digit zero-padding on the millisecond range. -/
theorem zfill3_len_fin : ∀ n : Fin 1000, (zfill3 (n : ℤ)).length = 3 := by decide

/-- Two-digit zero-padding has length two on `[0, 60)`. -/
theorem zfill2_length (n : ℤ) (h0 : 0 ≤ n) (h : n < 60) : (zfill2 n).length = 2 := by
  have hfin := zfill2_len_fin ⟨n.toNat, by omega⟩
  simpa [Int.toNat_of_nonneg h0] using hfin

/-- Three-digit zero-padding has length three on `[0, 1000)`. -/
theorem zfill3_length (n : ℤ) (h0 : 0 ≤ n) (h : n < 1000) : (zfill3 n).length = 3 := by
  have hfin := zfill3_len_fin ⟨n.toNat, by omega⟩
  simpa [Int.toNat_of_nonneg h0] using hfin

/-- Millisecond analysis of `format_time_seconds` on a nonnegative binary64
value: the truncated, float-scaled fractional part stays within `[0, 1000)`
and the whole formatted value is within one millisecond of the input. -/
theorem format_ms_key (q : ℚ) (h0 : 0 ≤ q) (hd : IsDouble q) :
    0 ≤ ratTrunc (flQ (flQ (q - ⌊q⌋) * 1000)) ∧
    ratTrunc (flQ (flQ (q - ⌊q⌋) * 1000)) < 1000 ∧
    |q - ((⌊q⌋ : ℚ) + (ratTrunc (flQ (flQ (q - ⌊q⌋) * 1000)) : ℚ) / 1000)| < 1/1000 := by
  have hfr : q - (⌊q⌋ : ℚ) = Int.fract q := Int.self_sub_floor q
  have hfd : IsDouble (Int.fract q) := fract_isDouble q hd h0
  have hflfr : flQ (q - (⌊q⌋ : ℚ)) = Int.fract q := by
    rw [hfr]
    exact flQ_eq_self _ hfd
  by_cases hz : Int.fract q = 0
  · have hms : ratTrunc (flQ (flQ (q - ⌊q⌋) * 1000)) = 0 := by
      rw [hflfr, hz, zero_mul]
      norm_num [ratTrunc, flQ]
    rw [hms]
    have hq_eq : q = (⌊q⌋ : ℚ) := by
      have := hfr
      rw [hz] at this
      linarith
    refine ⟨le_rfl, by norm_num, ?_⟩
    rw [← hq_eq]
    push_cast
    rw [zero_div, add_zero, sub_self, abs_zero]
    norm_num
  · have hfr0 : 0 < Int.fract q := lt_of_le_of_ne (Int.fract_nonneg q) (Ne.symm hz)
    have hfr1 : Int.fract q < 1 := Int.fract_lt_one q
    set x0 : ℚ := Int.fract q * 1000 with hx0
    have hx0pos : 0 < x0 := mul_pos hfr0 (by norm_num)
    have hx0ne : x0 ≠ 0 := ne_of_gt hx0pos
    have hx0lt : x0 < 1000 := by
      calc x0 = Int.fract q * 1000 := hx0
      _ < 1 * 1000 := mul_lt_mul_of_pos_right hfr1 (by norm_num)
      _ = 1000 := by norm_num
    have habs0 : |x0| < (2:ℚ) ^ (10:ℤ) := by
      rw [abs_of_pos hx0pos]
      have h1024 : (2:ℚ) ^ (10:ℤ) = 1024 := by norm_num
      linarith
    have hds : dScale x0 ≤ -43 := by
      have hb := dScale_lt_bound x0 10 hx0ne habs0
      have hmax : max ((10:ℤ) - 53) (-1074) = -43 := by norm_num
      omega
    have hfrbound : Int.fract q ≤ 1 - (2:ℚ) ^ (-53:ℤ) :=
      double_lt_one_bound _ hfd (Int.fract_nonneg q) hfr1
    have herr := flQ_err x0
    have hscale_small : (2:ℚ) ^ (dScale x0 - 1) ≤ 2 ^ (-44:ℤ) :=
      zpow_le_zpow_right₀ (by norm_num) (by omega)
    have hb44 : (2:ℚ) ^ (-44:ℤ) = 1/17592186044416 := by norm_num
    have hb53 : (2:ℚ) ^ (-53:ℤ) = 1/9007199254740992 := by norm_num
    have hupper : flQ x0 ≤ x0 + 1/17592186044416 := by
      have h1 := (abs_le.mp herr).2
      rw [hb44] at hscale_small
      linarith
    have hflt : flQ x0 < 1000 := by
      have hmul := mul_le_mul_of_nonneg_right hfrbound (show (0:ℚ) ≤ 1000 by norm_num)
      have hx0b : x0 ≤ 1000 - 1000 * (2:ℚ) ^ (-53:ℤ) := by
        rw [hx0]
        linarith [hmul]
      rw [hb53] at hx0b
      linarith
    have hkfloor : ((⌊x0⌋ : ℤ) : ℚ) ≤ flQ x0 :=
      flQ_ge_int x0 ⌊x0⌋ hx0ne (by omega) (Int.floor_le x0)
    have hbase0 : (0:ℤ) ≤ ⌊x0⌋ := Int.le_floor.mpr (by exact_mod_cast le_of_lt hx0pos)
    have hfl0 : (0:ℚ) ≤ flQ x0 := le_trans (by exact_mod_cast hbase0) hkfloor
    have hmseq : ratTrunc (flQ (flQ (q - ⌊q⌋) * 1000)) = ⌊flQ x0⌋ := by
      rw [hflfr, ← hx0]
      unfold ratTrunc
      rw [if_pos hfl0]
    rw [hmseq]
    have hms0 : 0 ≤ ⌊flQ x0⌋ := Int.le_floor.mpr (by exact_mod_cast hfl0)
    have hms1000 : ⌊flQ x0⌋ < 1000 := Int.floor_lt.mpr (by exact_mod_cast hflt)
    refine ⟨hms0, hms1000, ?_⟩
    have hq_eq : q - ((⌊q⌋ : ℚ) + (⌊flQ x0⌋ : ℚ)/1000) =
        Int.fract q - (⌊flQ x0⌋ : ℚ)/1000 := by
      rw [← hfr]
      ring
    rw [hq_eq, abs_lt]
    have hmsle : ((⌊flQ x0⌋ : ℤ) : ℚ) ≤ flQ x0 := Int.floor_le _
    have hmsge : ((⌊x0⌋ : ℤ) : ℚ) ≤ ((⌊flQ x0⌋ : ℤ) : ℚ) := by
      exact_mod_cast Int.le_floor.mpr hkfloor
    have hx0floor : x0 - 1 < ((⌊x0⌋ : ℤ) : ℚ) := Int.sub_one_lt_floor x0
    constructor
    · have h1 : ((⌊flQ x0⌋ : ℤ) : ℚ) ≤ x0 + 1/17592186044416 := le_trans hmsle hupper
      rw [hx0] at h1
      linarith
    · rw [hx0] at hx0floor
      linarith

/-- C7: on every nonnegative finite binary64 input, `format_time_seconds`
produces `HH:MM:SS.mmm`: a nonnegative hour field and two-digit minute and
second fields below 60, separated by colons, then a dot and a three-digit
millisecond field below 1000, and the encoded fields denote a time equal to
the input to within one millisecond. -/
theorem c7_format_time_seconds_shape (q : ℚ) (h0 : 0 ≤ q) (hd : IsDouble q) :
    ∃ hour minute sec ms : ℤ,
      format_time_seconds (some (.finite q)) =
        .ok (zfill2 hour ++ ":" ++ zfill2 minute ++ ":" ++ zfill2 sec ++ "." ++ zfill3 ms) ∧
      0 ≤ hour ∧ 0 ≤ minute ∧ minute < 60 ∧ 0 ≤ sec ∧ sec < 60 ∧
      0 ≤ ms ∧ ms < 1000 ∧
      (zfill2 minute).length = 2 ∧ (zfill2 sec).length = 2 ∧ (zfill3 ms).length = 3 ∧
      |q - (((hour * 3600 + minute * 60 + sec : ℤ) : ℚ) + (ms : ℚ) / 1000)| < 1/1000 := by
  have hT0 : (0:ℤ) ≤ ⌊q⌋ := Int.le_floor.mpr (by exact_mod_cast h0)
  have hsec0 : 0 ≤ Int.emod ⌊q⌋ 60 := Int.emod_nonneg _ (by norm_num)
  have hsec60 : Int.emod ⌊q⌋ 60 < 60 := Int.emod_lt_of_pos _ (by norm_num)
  have hmin0 : 0 ≤ Int.emod (Int.ediv ⌊q⌋ 60) 60 := Int.emod_nonneg _ (by norm_num)
  have hmin60 : Int.emod (Int.ediv ⌊q⌋ 60) 60 < 60 := Int.emod_lt_of_pos _ (by norm_num)
  have hhour0 : 0 ≤ Int.ediv (Int.ediv ⌊q⌋ 60) 60 :=
    Int.ediv_nonneg (Int.ediv_nonneg hT0 (by norm_num)) (by norm_num)
  have key := format_ms_key q h0 hd
  have hrec : Int.ediv (Int.ediv ⌊q⌋ 60) 60 * 3600 +
      Int.emod (Int.ediv ⌊q⌋ 60) 60 * 60 + Int.emod ⌊q⌋ 60 = ⌊q⌋ := by
    have e1 : 60 * Int.ediv ⌊q⌋ 60 + Int.emod ⌊q⌋ 60 = ⌊q⌋ := Int.ediv_add_emod _ 60
    have e2 : 60 * Int.ediv (Int.ediv ⌊q⌋ 60) 60 + Int.emod (Int.ediv ⌊q⌋ 60) 60 =
        Int.ediv ⌊q⌋ 60 := Int.ediv_add_emod _ 60
    omega
  refine ⟨Int.ediv (Int.ediv ⌊q⌋ 60) 60, Int.emod (Int.ediv ⌊q⌋ 60) 60,
    Int.emod ⌊q⌋ 60, ratTrunc (flQ (flQ (q - ⌊q⌋) * 1000)),
    rfl, hhour0, hmin0, hmin60, hsec0, hsec60, key.1, key.2.1,
    zfill2_length _ hmin0 hmin60, zfill2_length _ hsec0 hsec60,
    zfill3_length _ key.1 key.2.1, ?_⟩
  have hcast : ((Int.ediv (Int.ediv ⌊q⌋ 60) 60 * 3600 +
      Int.emod (Int.ediv ⌊q⌋ 60) 60 * 60 + Int.emod ⌊q⌋ 60 : ℤ) : ℚ) = ((⌊q⌋ : ℤ) : ℚ) := by
    exact_mod_cast congrArg (fun z : ℤ => (z : ℚ)) hrec
  rw [hcast]
  exact key.2.2

/-- Closed witness for `c7_format_time_seconds_shape` at the binary64 value
90 (one minute and thirty seconds). -/
theorem c7_format_time_seconds_shape_witness :
    ∃ hour minute sec ms : ℤ,
      format_time_seconds (some (.finite 90)) =
        .ok (zfill2 hour ++ ":" ++ zfill2 minute ++ ":" ++ zfill2 sec ++ "." ++ zfill3 ms) ∧
      0 ≤ hour ∧ 0 ≤ minute ∧ minute < 60 ∧ 0 ≤ sec ∧ sec < 60 ∧
      0 ≤ ms ∧ ms < 1000 ∧
      (zfill2 minute).length = 2 ∧ (zfill2 sec).length = 2 ∧ (zfill3 ms).length = 3 ∧
      |(90:ℚ) - (((hour * 3600 + minute * 60 + sec : ℤ) : ℚ) + (ms : ℚ) / 1000)| < 1/1000 :=
  c7_format_time_seconds_shape 90 (by norm_num)
    ⟨90, 0, by norm_num, by norm_num, by norm_num⟩

end V2G
